import Mathlib

/-!
Shallow embedding of `src/thermometer.c` (pico-thermometer), a bare-metal
DHT11 thermometer for the Raspberry Pi Pico, together with proofs about it.

Modelling conventions:
* C `int`/`uint` values are modelled as `ℕ` (all the arithmetic here stays
  nonnegative and far below any overflow boundary); `&`, `|`, `<<` become
  `&&&`, `|||`, `<<<` on `ℕ`.
* C `float` is modelled as `ℚ`.  Every float computed by the program is a
  quotient of small integers and every comparison made on one is far from any
  rounding boundary, so exact rational arithmetic and IEEE single arithmetic
  decide all the tested predicates identically.
* The GPIO line sampled by `read_from_dht` is abstracted as the list of
  level-hold durations: entry `i` is the number of 1-microsecond polling steps
  the line holds its level during timing slot `i` before flipping.  An
  exhausted list means the line never flips again (an unbounded hold).
* Fallible operations (the out-of-bounds table read in `set_digit`) return
  `Option`; `none` models the C undefined behaviour.
-/

/-- `dht_reading` struct: humidity and temperature in Celsius (C `float`s,
modelled as `ℚ`). -/
structure dht_reading where
  humidity : ℚ
  temp_celsius : ℚ
deriving DecidableEq

/-- `MAX_TIMINGS`: the slot loop in `read_from_dht` runs `i` from 0 to 84. -/
def MAX_TIMINGS : ℕ := 85

/-- The decoder's loop state: the C locals `int data[5]` and `uint j`
(number of bits recorded so far). -/
structure DecodeState where
  data : List ℕ
  j : ℕ
deriving DecidableEq

/-- `data` and `j` before the slot loop: `int data[5] = {0,0,0,0,0}; uint j = 0`. -/
def initState : DecodeState := ⟨[0, 0, 0, 0, 0], 0⟩

/-- The body of `if ((i >= 4) && (i % 2 == 0)) { data[j / 8] <<= 1;
if (count > 50) data[j / 8] |= 1; j++; }` once the guard holds:
shift the current byte left and or-in the decoded bit. -/
def recordBit (st : DecodeState) (b : Bool) : DecodeState :=
  { data := st.data.set (st.j / 8)
      (((st.data.getD (st.j / 8) 0) <<< 1) ||| (if b then 1 else 0)),
    j := st.j + 1 }

/-- One slot's bit-recording step, guard included: slots `i < 4` and odd
slots record nothing. -/
def stepBit (i count : ℕ) (st : DecodeState) : DecodeState :=
  if 4 ≤ i ∧ i % 2 = 0 then recordBit st (decide (50 < count)) else st

/-- The slot loop of `read_from_dht`, by recursion on the remaining hold
durations.  In slot `i` the C code polls the line once per microsecond,
incrementing `count` and breaking out of the poll when `count` reaches 255;
so `count = min hold 255`, and `if (count == 255) break;` aborts the slot
loop.  An exhausted hold list is a line that never flips, which would also
drive `count` to 255 and abort. -/
def dhtSlots (i : ℕ) : List ℕ → DecodeState → DecodeState
  | [], st => st
  | c :: rest, st =>
    if MAX_TIMINGS ≤ i then st
    else if min c 255 = 255 then st
    else dhtSlots (i + 1) rest (stepBit i (min c 255) st)

/-- The full decode pass over a hold-duration trace. -/
def dhtDecode (cs : List ℕ) : DecodeState := dhtSlots 0 cs initState

/-- The validation test of `read_from_dht`:
`(j >= 40) && (data[4] == ((data[0] + data[1] + data[2] + data[3]) & 0xFF))`. -/
def dhtValid (st : DecodeState) : Bool :=
  decide (40 ≤ st.j) &&
    decide (st.data.getD 4 0 =
      (st.data.getD 0 0 + st.data.getD 1 0 + st.data.getD 2 0 + st.data.getD 3 0) &&& 0xFF)

/-- The conversion block of `read_from_dht` executed when validation passes:
humidity from bytes 0 and 1 with the >100 override, temperature from bytes 2
and 3 with the >125 override and the sign bit in bit 7 of byte 2. -/
def dhtConvert (data : List ℕ) : dht_reading :=
  let humidity : ℚ := ((((data.getD 0 0) <<< 8) + data.getD 1 0 : ℕ) : ℚ) / 10
  let humidity : ℚ := if 100 < humidity then ((data.getD 0 0 : ℕ) : ℚ) else humidity
  let temp : ℚ := (((((data.getD 2 0) &&& 0x7F) <<< 8) + data.getD 3 0 : ℕ) : ℚ) / 10
  let temp : ℚ := if 125 < temp then ((data.getD 2 0 : ℕ) : ℚ) else temp
  let temp : ℚ := if (data.getD 2 0) &&& 0x80 ≠ 0 then -temp else temp
  { humidity := humidity, temp_celsius := temp }

/-- `void read_from_dht(dht_reading *result)`: `result` is an in/out
parameter; when validation fails the C function returns with `*result`
untouched, so the model takes the incoming value and returns it unchanged
in that case. -/
def read_from_dht (cs : List ℕ) (result : dht_reading) : dht_reading :=
  let st := dhtDecode cs
  if dhtValid st then dhtConvert st.data else result

/-! ### Synthetic wire traces

Hold-duration traces that exercise the decoder: 4 preamble slots, then for
each transmitted bit one even ("high half") slot carrying the bit's hold
duration followed by one odd separator slot. -/

/-- A wire trace carrying the given per-bit hold durations, with `sep` as the
hold duration of the preamble slots and of the odd separator slots. -/
def encodeHolds (sep : ℕ) (hs : List ℕ) : List ℕ :=
  [sep, sep, sep, sep] ++ hs.flatMap fun h => [h, sep]

/-- The 8 bits of a byte, most significant first. -/
def bitsOfByte (b : ℕ) : List Bool :=
  (List.range 8).map fun k => b.testBit (7 - k)

/-- Hold duration transmitting one bit: above the 50-step threshold for a 1,
below it for a 0. -/
def dhtBitHold (b : Bool) : ℕ := if b then 60 else 26

/-- A wire trace transmitting the 5 bytes `b0 b1 b2 b3 c` most significant
bit first. -/
def encodeBytes (b0 b1 b2 b3 c : ℕ) : List ℕ :=
  encodeHolds 26
    ((bitsOfByte b0 ++ bitsOfByte b1 ++ bitsOfByte b2 ++ bitsOfByte b3 ++ bitsOfByte c).map
      dhtBitHold)

/-- MSB-first accumulation of a bit list into a number, as the spec describes
the byte assembly. -/
def byteFromBits (bs : List Bool) : ℕ :=
  bs.foldl (fun a b => 2 * a + (if b then 1 else 0)) 0


/-! ### Display driver -/

/-- `const bool DIGIT_0[]` through `DIGIT_9[]`: the 7-segment bitmasks. -/
def DIGIT_0 : List Bool := [true, true, true, true, true, true, false, false]

def DIGIT_1 : List Bool := [false, true, true, false, false, false, false, false]

def DIGIT_2 : List Bool := [true, true, false, true, true, false, true, false]

def DIGIT_3 : List Bool := [true, true, true, true, false, false, true, false]

def DIGIT_4 : List Bool := [false, true, true, false, false, true, true, false]

def DIGIT_5 : List Bool := [true, false, true, true, false, true, true, false]

def DIGIT_6 : List Bool := [true, false, true, true, true, true, true, false]

def DIGIT_7 : List Bool := [true, true, true, false, false, false, false, false]

def DIGIT_8 : List Bool := [true, true, true, true, true, true, true, false]

def DIGIT_9 : List Bool := [true, true, true, false, false, true, true, false]

/-- `const bool *DIGIT_MASKS[]`: the 10-entry lookup table. -/
def DIGIT_MASKS : List (List Bool) :=
  [DIGIT_0, DIGIT_1, DIGIT_2, DIGIT_3, DIGIT_4, DIGIT_5, DIGIT_6, DIGIT_7, DIGIT_8, DIGIT_9]

/-- `bool display[][8] = {{0},{0},{0},{0}}`: the stored patterns, all blank. -/
def initDisplay : List (List Bool) :=
  [List.replicate 8 false, List.replicate 8 false,
   List.replicate 8 false, List.replicate 8 false]

/-- `void set_digit(uint selector, uint value)`: copies `DIGIT_MASKS[value]`
into `display[selector]`.  The C code indexes the 10-entry table without a
bounds check, so `value >= 10` reads past its end (undefined behaviour);
the model returns `none` for that out-of-bounds read. -/
def set_digit (display : List (List Bool)) (selector value : ℕ) :
    Option (List (List Bool)) :=
  (DIGIT_MASKS.get? value).map fun mask => display.set selector mask

/-- The level `display_digit` writes to the selected digit pin
(`gpio_put(DIGIT_PINS[i], (selector == i) ? 0 : 1)`): the selected digit's
line is driven low, so low (`false`) is the active level. -/
def digitActiveLevel : Bool := false

/-- The state of the 4 digit-select output pins and 8 segment output pins. -/
structure PinState where
  digitPins : List Bool
  segPins : List Bool
deriving DecidableEq

/-- One call to `display_digit(selector)`: the pin levels it drives, plus the
`sleep_ms(2)` dwell that follows them. -/
structure RenderStep where
  selector : ℕ
  pins : PinState
  dwell_ms : ℕ
deriving DecidableEq

/-- `void display_digit(uint selector)`: drives the digit pins (only the
selected one active-low), drives the 8 segment pins from the stored pattern
of that position, then sleeps 2 ms. -/
def display_digit (display : List (List Bool)) (selector : ℕ) : RenderStep :=
  { selector := selector
  , pins :=
      { digitPins := (List.range 4).map fun i => if selector = i then false else true
      , segPins := (List.range 8).map fun i => (display.getD selector []).getD i false }
  , dwell_ms := 2 }

/-- `void display_off()`: digit pins all driven to 1 (not selected), segment
pins all driven to 0. -/
def display_off : PinState :=
  { digitPins := List.replicate 4 true, segPins := List.replicate 8 false }

/-- `void display_all()`: 1000 frames, each visiting positions 0,1,2,3 in
order, then `display_off()`.  Returned as the trace of render steps plus the
final pin state. -/
def display_all (display : List (List Bool)) : List RenderStep × PinState :=
  (((List.range 1000).flatMap fun _ => (List.range 4).map fun j => display_digit display j),
    display_off)

/-! ### Trigger controller and main loop -/

/-- The globals `bool should_read` and `uint64_t last_press`. -/
structure LoopState where
  should_read : Bool
  last_press : ℕ
deriving DecidableEq

/-- `void button_callback()`: its only state change is `should_read = true`
(the IRQ disable/re-enable around it has no modelled effect). -/
def button_callback (st : LoopState) : LoopState :=
  { st with should_read := true }

/-- The observable actions of one main-loop iteration, in program order. -/
inductive MainAction where
  | clearFlag
  | readClock
  | debounceDrop
  | acceptTrigger
  | serviceRead
  | sleepTick
deriving DecidableEq

/-- One iteration of the `while (1)` loop in `main`.  `now` is the value
`time_us_64()` returns this iteration.  `irqDuringService` says whether a
button edge fires while `print_dht_reading()` is being serviced; the
callback only sets `should_read`, so its effect commutes to the end of the
iteration.  Returns the new state and the trace of actions performed. -/
def mainIter (st : LoopState) (now : ℕ) (irqDuringService : Bool) :
    LoopState × List MainAction :=
  if st.should_read then
    let st1 : LoopState := { st with should_read := false }
    if now ≤ st1.last_press + 2000000 then
      (st1, [MainAction.clearFlag, MainAction.readClock, MainAction.debounceDrop,
        MainAction.sleepTick])
    else
      let st2 : LoopState := { st1 with last_press := now }
      let st3 : LoopState := if irqDuringService then button_callback st2 else st2
      (st3, [MainAction.clearFlag, MainAction.readClock, MainAction.acceptTrigger,
        MainAction.serviceRead, MainAction.sleepTick])
  else (st, [MainAction.sleepTick])

/-! ### print_dht_reading -/

/-- The C cast `(uint)q` of a nonnegative float value: truncation. -/
def cUint (q : ℚ) : ℕ := q.floor.toNat

/-- `float fahrenheit = (reading.temp_celsius * 9 / 5) + 32`. -/
def fahrenheitOf (reading : dht_reading) : ℚ := reading.temp_celsius * 9 / 5 + 32

/-- The four `(selector, value)` pairs `print_dht_reading` passes to
`set_digit`: tens and ones of Fahrenheit, then tens and ones of humidity. -/
def printDigitArgs (reading : dht_reading) : List (ℕ × ℕ) :=
  [(0, cUint (fahrenheitOf reading) / 10),
   (1, cUint (fahrenheitOf reading) % 10),
   (2, cUint reading.humidity / 10),
   (3, cUint reading.humidity % 10)]

/-- `void print_dht_reading()`: reads the sensor into the uninitialized local
`reading` (modelled by the incoming `garbage` value, which `read_from_dht`
returns unchanged on a failed validation), sets the four digits, then runs
`display_all`.  `none` propagates an out-of-bounds `set_digit` lookup. -/
def print_dht_reading (cs : List ℕ) (garbage : dht_reading)
    (display : List (List Bool)) :
    Option (List (List Bool) × (List RenderStep × PinState)) :=
  let reading := read_from_dht cs garbage
  match (printDigitArgs reading).foldlM
      (fun d (p : ℕ × ℕ) => set_digit d p.1 p.2) display with
  | some d2 => some (d2, display_all d2)
  | none => none


/-! ### Bitwise helper lemmas -/

/-- Or-ing `b < 2 ^ n` into a number shifted left by `n` is addition. -/
theorem shiftLeft_lor_eq_add (a b n : ℕ) (hb : b < 2 ^ n) :
    (a <<< n) ||| b = 2 ^ n * a + b := by
  apply Nat.eq_of_testBit_eq
  intro i
  rw [Nat.testBit_or, Nat.testBit_shiftLeft, Nat.testBit_mul_pow_two_add a hb i]
  by_cases h : i < n
  · simp [h, Nat.not_le.mpr h]
  · simp [h, Nat.not_lt.mp h, Nat.testBit_lt_two_pow (lt_of_lt_of_le hb (Nat.pow_le_pow_right (by omega) (Nat.not_lt.mp h)))]

/-- Special case used by `recordBit`: shifting left one and or-ing in a bit. -/
theorem shiftLeft_one_lor_bit (a : ℕ) (b : Bool) :
    (a <<< 1) ||| (if b then 1 else 0) = 2 * a + (if b then 1 else 0) := by
  have h := shiftLeft_lor_eq_add a (if b then 1 else 0) 1 (by cases b <;> simp)
  simpa using h

set_option maxRecDepth 4096 in
/-- Reassembling the MSB-first bits of a byte gives the byte back. -/
theorem byteFromBits_bitsOfByte : ∀ b < 256, byteFromBits (bitsOfByte b) = b := by decide

/-! ### How the slot loop consumes a synthetic wire trace -/

/-- `dhtSlots` unfolded on a cons cell. -/
theorem dhtSlots_cons (i c : ℕ) (rest : List ℕ) (st : DecodeState) :
    dhtSlots i (c :: rest) st =
      if MAX_TIMINGS ≤ i then st
      else if min c 255 = 255 then st
      else dhtSlots (i + 1) rest (stepBit i (min c 255) st) := rfl

/-- A used (even, post-preamble) slot followed by a separator slot records
exactly one bit, decoded by the strict 50-step threshold. -/
theorem dhtSlots_pair (i c s : ℕ) (rest : List ℕ) (st : DecodeState)
    (hc : c < 255) (hsep : s < 255) (hi4 : 4 ≤ i) (he : i % 2 = 0) (hb : i + 2 ≤ 85) :
    dhtSlots i (c :: s :: rest) st =
      dhtSlots (i + 2) rest (recordBit st (decide (50 < c))) := by
  have hmc : min c 255 = c := Nat.min_eq_left (by omega)
  have hms : min s 255 = s := Nat.min_eq_left (by omega)
  rw [dhtSlots_cons, if_neg (by simp only [MAX_TIMINGS]; omega), hmc, if_neg (by omega)]
  rw [dhtSlots_cons, if_neg (by simp only [MAX_TIMINGS]; omega), hms, if_neg (by omega)]
  have hstep1 : stepBit i c st = recordBit st (decide (50 < c)) := by
    unfold stepBit
    rw [if_pos ⟨hi4, he⟩]
  have hstep2 : ∀ st2, stepBit (i + 1) s st2 = st2 := by
    intro st2
    unfold stepBit
    rw [if_neg (by omega)]
  rw [hstep1, hstep2]

/-- Consuming a whole per-bit trace: each `[hold, sep]` pair records one bit,
so the slot loop folds `recordBit` over the decoded bits. -/
theorem dhtSlots_pairs (hs : List ℕ) (sep : ℕ) : ∀ (i : ℕ) (st : DecodeState),
    (∀ h ∈ hs, h < 255) → sep < 255 → 4 ≤ i → i % 2 = 0 → i + 2 * hs.length ≤ 85 →
    dhtSlots i (hs.flatMap fun h => [h, sep]) st =
      hs.foldl (fun s h => recordBit s (decide (50 < h))) st := by
  induction hs with
  | nil =>
    intro i st _ _ _ _ _
    simp [dhtSlots]
  | cons h t ih =>
    intro i st hlt hsep hi4 he hbound
    rw [List.flatMap_cons, List.cons_append, List.cons_append, List.nil_append]
    rw [dhtSlots_pair i h sep _ st (hlt h (by simp)) hsep hi4 he
      (by simp at hbound; omega)]
    rw [List.foldl_cons]
    exact ih (i + 2) _ (fun x hx => hlt x (by simp [hx])) hsep (by omega) (by omega)
      (by simp at hbound ⊢; omega)

/-- The four preamble slots are skipped (no bit recorded), after which the
per-bit pairs are folded into the state: a full characterization of the
decode pass on a synthetic wire trace of at most 40 bits. -/
theorem dhtDecode_encodeHolds (sep : ℕ) (hs : List ℕ) (hlt : ∀ h ∈ hs, h < 255)
    (hsep : sep < 255) (hlen : hs.length ≤ 40) :
    dhtDecode (encodeHolds sep hs) =
      hs.foldl (fun s h => recordBit s (decide (50 < h))) initState := by
  have hms : min sep 255 = sep := by omega
  have hpre : ∀ i st, i < 4 → stepBit i sep st = st := by
    intro i st hi
    unfold stepBit
    rw [if_neg (by omega)]
  unfold dhtDecode encodeHolds
  rw [List.cons_append, List.cons_append, List.cons_append, List.cons_append, List.nil_append]
  rw [dhtSlots_cons, if_neg (by simp only [MAX_TIMINGS]; omega), hms, if_neg (by omega),
    hpre 0 _ (by omega)]
  rw [dhtSlots_cons, if_neg (by simp only [MAX_TIMINGS]; omega), hms, if_neg (by omega),
    hpre 1 _ (by omega)]
  rw [dhtSlots_cons, if_neg (by simp only [MAX_TIMINGS]; omega), hms, if_neg (by omega),
    hpre 2 _ (by omega)]
  rw [dhtSlots_cons, if_neg (by simp only [MAX_TIMINGS]; omega), hms, if_neg (by omega),
    hpre 3 _ (by omega)]
  exact dhtSlots_pairs hs sep 4 initState hlt hsep (by omega) (by omega) (by omega)

/-- Replacing an entry of a list by its own value changes nothing. -/
theorem set_getD_self (l : List ℕ) : ∀ (m : ℕ), m < l.length → l.set m (l.getD m 0) = l := by
  induction l with
  | nil => intro m hm; simp at hm
  | cons a t ih =>
    intro m hm
    cases m with
    | zero => simp
    | succ n =>
      simp only [List.getD_eq_getElem?_getD, List.getElem?_cons_succ, List.set_cons_succ]
      have := ih n (by simp at hm; omega)
      simp only [List.getD_eq_getElem?_getD] at this
      rw [this]

/-- Folding `recordBit` over bits that all land in byte `m` of `data`:
the byte accumulates MSB-first and `j` advances by one per bit. -/
theorem foldl_recordBit_aux (bs : List Bool) : ∀ (st : DecodeState) (m k : ℕ),
    st.j = 8 * m + k → k + bs.length ≤ 8 → m < st.data.length →
    bs.foldl recordBit st =
      { data := st.data.set m
          (bs.foldl (fun a b => 2 * a + (if b then 1 else 0)) (st.data.getD m 0)),
        j := st.j + bs.length } := by
  induction bs with
  | nil =>
    intro st m k hj hk hm
    simp only [List.foldl_nil, List.length_nil, Nat.add_zero]
    rw [set_getD_self st.data m hm]
  | cons b t ih =>
    intro st m k hj hk hm
    have hk8 : k < 8 := by
      simp only [List.length_cons] at hk
      omega
    have hdiv : st.j / 8 = m := by omega
    have hstep : recordBit st b =
        { data := st.data.set m (2 * (st.data.getD m 0) + (if b then 1 else 0)),
          j := st.j + 1 } := by
      unfold recordBit
      rw [hdiv, shiftLeft_one_lor_bit]
    rw [List.foldl_cons, List.foldl_cons, hstep]
    rw [ih _ m (k + 1) (by simp; omega) (by simp at hk ⊢; omega)
      (by simpa using hm)]
    have hmlt : m < (st.data.set m (2 * (st.data.getD m 0) + (if b then 1 else 0))).length := by
      simpa using hm
    have hgd : (st.data.set m (2 * (st.data.getD m 0) + (if b then 1 else 0))).getD m 0 =
        2 * (st.data.getD m 0) + (if b then 1 else 0) := by
      simp [List.getD_eq_getElem?_getD, List.getElem?_set_self (by simpa using hm)]
    rw [hgd]
    simp only [List.set_set]
    congr 1
    simp
    omega

/-- Folding the 8 MSB-first bits of one byte into a fresh (zero) byte slot. -/
theorem foldl_recordBit_block (bs : List Bool) (st : DecodeState) (m : ℕ)
    (h8 : bs.length = 8) (hj : st.j = 8 * m) (hm : m < st.data.length)
    (hcell : st.data.getD m 0 = 0) :
    bs.foldl recordBit st = { data := st.data.set m (byteFromBits bs), j := 8 * m + 8 } := by
  rw [foldl_recordBit_aux bs st m 0 (by omega) (by omega) hm, hcell]
  unfold byteFromBits
  congr 1
  omega

/-- Folding any 40 bits from the initial state fills the five `data` bytes in
order, MSB-first, and leaves `j = 40`. -/
theorem foldl_recordBit_forty (bits : List Bool) (h : bits.length = 40) :
    bits.foldl recordBit initState =
      { data := [byteFromBits (bits.take 8),
                 byteFromBits ((bits.drop 8).take 8),
                 byteFromBits ((bits.drop 16).take 8),
                 byteFromBits ((bits.drop 24).take 8),
                 byteFromBits (bits.drop 32)],
        j := 40 } := by
  have e0 : bits.take 8 ++ bits.drop 8 = bits := List.take_append_drop 8 bits
  have e1 : (bits.drop 8).take 8 ++ bits.drop 16 = bits.drop 8 := by
    rw [show bits.drop 16 = (bits.drop 8).drop 8 by rw [List.drop_drop]]
    exact List.take_append_drop 8 (bits.drop 8)
  have e2 : (bits.drop 16).take 8 ++ bits.drop 24 = bits.drop 16 := by
    rw [show bits.drop 24 = (bits.drop 16).drop 8 by rw [List.drop_drop]]
    exact List.take_append_drop 8 (bits.drop 16)
  have e3 : (bits.drop 24).take 8 ++ bits.drop 32 = bits.drop 24 := by
    rw [show bits.drop 32 = (bits.drop 24).drop 8 by rw [List.drop_drop]]
    exact List.take_append_drop 8 (bits.drop 24)
  have l0 : (bits.take 8).length = 8 := by simp [h]
  have l1 : ((bits.drop 8).take 8).length = 8 := by simp [h]
  have l2 : ((bits.drop 16).take 8).length = 8 := by simp [h]
  have l3 : ((bits.drop 24).take 8).length = 8 := by simp [h]
  have l4 : (bits.drop 32).length = 8 := by simp [h]
  conv_lhs => rw [← e0, ← e1, ← e2, ← e3]
  rw [List.foldl_append, List.foldl_append, List.foldl_append, List.foldl_append]
  rw [foldl_recordBit_block _ initState 0 l0 rfl (by simp [initState]) (by simp [initState])]
  rw [foldl_recordBit_block _ _ 1 l1 rfl (by simp [initState]) (by simp [initState])]
  rw [foldl_recordBit_block _ _ 2 l2 rfl (by simp [initState]) (by simp [initState])]
  rw [foldl_recordBit_block _ _ 3 l3 rfl (by simp [initState]) (by simp [initState])]
  rw [foldl_recordBit_block _ _ 4 l4 rfl (by simp [initState]) (by simp [initState])]
  simp [initState]

/-- End-to-end decode of a synthetic 5-byte wire trace: the `data` array
holds exactly the transmitted bytes and 40 bits were recorded. -/
theorem dhtDecode_encodeBytes (b0 b1 b2 b3 c : ℕ)
    (h0 : b0 < 256) (h1 : b1 < 256) (h2 : b2 < 256) (h3 : b3 < 256) (hc : c < 256) :
    dhtDecode (encodeBytes b0 b1 b2 b3 c) = ⟨[b0, b1, b2, b3, c], 40⟩ := by
  have hbits : ∀ b : ℕ, (bitsOfByte b).length = 8 := by
    intro b
    simp [bitsOfByte]
  have hlen : (bitsOfByte b0 ++ bitsOfByte b1 ++ bitsOfByte b2 ++ bitsOfByte b3 ++
      bitsOfByte c).length = 40 := by
    simp [hbits]
  unfold encodeBytes
  rw [dhtDecode_encodeHolds 26 _
    (by
      intro x hx
      simp only [List.mem_map] at hx
      obtain ⟨b, _, rfl⟩ := hx
      cases b <;> simp [dhtBitHold])
    (by omega) (by simp [hbits])]
  rw [List.foldl_map]
  have hbit : ∀ (s : DecodeState) (b : Bool),
      recordBit s (decide (50 < dhtBitHold b)) = recordBit s b := by
    intro s b
    cases b <;> simp [dhtBitHold]
  simp only [hbit]
  rw [foldl_recordBit_forty _ hlen]
  have t0 : (bitsOfByte b0 ++ bitsOfByte b1 ++ bitsOfByte b2 ++ bitsOfByte b3 ++
      bitsOfByte c).take 8 = bitsOfByte b0 := by
    rw [List.append_assoc, List.append_assoc, List.append_assoc]
    exact List.take_left' (hbits b0)
  have d0 : (bitsOfByte b0 ++ bitsOfByte b1 ++ bitsOfByte b2 ++ bitsOfByte b3 ++
      bitsOfByte c).drop 8 = bitsOfByte b1 ++ (bitsOfByte b2 ++ (bitsOfByte b3 ++
      bitsOfByte c)) := by
    rw [List.append_assoc, List.append_assoc, List.append_assoc]
    exact List.drop_left' (hbits b0)
  rw [t0, d0]
  have t1 : (bitsOfByte b1 ++ (bitsOfByte b2 ++ (bitsOfByte b3 ++ bitsOfByte c))).take 8 =
      bitsOfByte b1 := List.take_left' (hbits b1)
  have d8 : (bitsOfByte b1 ++ (bitsOfByte b2 ++ (bitsOfByte b3 ++ bitsOfByte c))).drop 8 =
      bitsOfByte b2 ++ (bitsOfByte b3 ++ bitsOfByte c) := List.drop_left' (hbits b1)
  have D16 : (bitsOfByte b0 ++ bitsOfByte b1 ++ bitsOfByte b2 ++ bitsOfByte b3 ++
      bitsOfByte c).drop 16 = bitsOfByte b2 ++ (bitsOfByte b3 ++ bitsOfByte c) := by
    rw [show (16 : ℕ) = 8 + 8 by norm_num, ← List.drop_drop, d0, d8]
  have D24 : (bitsOfByte b0 ++ bitsOfByte b1 ++ bitsOfByte b2 ++ bitsOfByte b3 ++
      bitsOfByte c).drop 24 = bitsOfByte b3 ++ bitsOfByte c := by
    rw [show (24 : ℕ) = 16 + 8 by norm_num, ← List.drop_drop, D16]
    exact List.drop_left' (hbits b2)
  have D32 : (bitsOfByte b0 ++ bitsOfByte b1 ++ bitsOfByte b2 ++ bitsOfByte b3 ++
      bitsOfByte c).drop 32 = bitsOfByte c := by
    rw [show (32 : ℕ) = 24 + 8 by norm_num, ← List.drop_drop, D24]
    exact List.drop_left' (hbits b3)
  rw [t1, D16, D24, D32]
  rw [List.take_left' (hbits b2), List.take_left' (hbits b3)]
  rw [byteFromBits_bitsOfByte b0 h0, byteFromBits_bitsOfByte b1 h1,
    byteFromBits_bitsOfByte b2 h2, byteFromBits_bitsOfByte b3 h3,
    byteFromBits_bitsOfByte c hc]

/-! ### C1 -- checksum acceptance -/

/-- C1: the decoder accepts a raw sample iff at least 40 bits were decoded and
the fifth byte equals the low 8 bits of the sum of the four data bytes: any
acceptance implies `j >= 40`, and on a synthetic trace carrying data bytes
`b0 b1 b2 b3` and checksum byte `c`, `read_from_dht`'s validation passes
exactly when `c = (b0 + b1 + b2 + b3) &&& 0xFF`. -/
theorem dht_accepts_iff_checksum :
    (∀ cs : List ℕ, dhtValid (dhtDecode cs) = true → 40 ≤ (dhtDecode cs).j) ∧
    (∀ b0 b1 b2 b3 c : ℕ, b0 < 256 → b1 < 256 → b2 < 256 → b3 < 256 → c < 256 →
      (dhtValid (dhtDecode (encodeBytes b0 b1 b2 b3 c)) = true ↔
        c = (b0 + b1 + b2 + b3) &&& 0xFF)) := by
  constructor
  · intro cs h
    simp only [dhtValid, Bool.and_eq_true, decide_eq_true_eq] at h
    exact h.1
  · intro b0 b1 b2 b3 c h0 h1 h2 h3 hc
    rw [dhtDecode_encodeBytes b0 b1 b2 b3 c h0 h1 h2 h3 hc]
    simp [dhtValid]

/-- Witness for C1 at the spec's end-to-end scenario bytes
`[0x02, 0x0A, 0x01, 0x05]` with checksum byte `0x12`. -/
theorem dht_accepts_iff_checksum_witness :
    (2 : ℕ) < 256 ∧ (10 : ℕ) < 256 ∧ (1 : ℕ) < 256 ∧ (5 : ℕ) < 256 ∧ (18 : ℕ) < 256 ∧
    (dhtValid (dhtDecode (encodeBytes 2 10 1 5 18)) = true ↔
      18 = (2 + 10 + 1 + 5) &&& 0xFF) :=
  ⟨by norm_num, by norm_num, by norm_num, by norm_num, by norm_num,
    dht_accepts_iff_checksum.2 2 10 1 5 18 (by norm_num) (by norm_num) (by norm_num)
      (by norm_num) (by norm_num)⟩

/-! ### C2 -- bit decoding structure -/

/-- C2: on a decode pass the 4 preamble slots are skipped, every second slot
thereafter decodes one bit (strictly more than 50 hold steps is a 1, 50 or
fewer is a 0), and the bits accumulate MSB-first into the 5 bytes of `data`
(humidity-high, humidity-low, temp-high, temp-low, checksum), 40 bits in
total: `j = 40` and each byte reassembles its 8 bits MSB-first. -/
theorem dht_decode_msb_first (sep : ℕ) (hs : List ℕ) (hsep : sep < 255)
    (hlen : hs.length = 40) (hlt : ∀ h ∈ hs, h < 255) :
    dhtDecode (encodeHolds sep hs) =
      { data := [byteFromBits ((hs.map fun h => decide (50 < h)).take 8),
                 byteFromBits (((hs.map fun h => decide (50 < h)).drop 8).take 8),
                 byteFromBits (((hs.map fun h => decide (50 < h)).drop 16).take 8),
                 byteFromBits (((hs.map fun h => decide (50 < h)).drop 24).take 8),
                 byteFromBits ((hs.map fun h => decide (50 < h)).drop 32)],
        j := 40 } := by
  rw [dhtDecode_encodeHolds sep hs hlt hsep (le_of_eq hlen)]
  rw [← List.foldl_map]
  exact foldl_recordBit_forty _ (by simp [hlen])

/-- Witness for C2 on a concrete 40-slot trace: 8 long holds then 32 short
holds, with separator 26, decoding to bytes `[0xFF, 0, 0, 0, 0]`. -/
theorem dht_decode_msb_first_witness :
    (26 : ℕ) < 255 ∧
    (List.replicate 8 (60 : ℕ) ++ List.replicate 32 26).length = 40 ∧
    (∀ h ∈ List.replicate 8 (60 : ℕ) ++ List.replicate 32 26, h < 255) ∧
    dhtDecode (encodeHolds 26 (List.replicate 8 (60 : ℕ) ++ List.replicate 32 26)) =
      { data := [byteFromBits (((List.replicate 8 (60 : ℕ) ++ List.replicate 32 26).map
                   fun h => decide (50 < h)).take 8),
                 byteFromBits ((((List.replicate 8 (60 : ℕ) ++ List.replicate 32 26).map
                   fun h => decide (50 < h)).drop 8).take 8),
                 byteFromBits ((((List.replicate 8 (60 : ℕ) ++ List.replicate 32 26).map
                   fun h => decide (50 < h)).drop 16).take 8),
                 byteFromBits ((((List.replicate 8 (60 : ℕ) ++ List.replicate 32 26).map
                   fun h => decide (50 < h)).drop 24).take 8),
                 byteFromBits (((List.replicate 8 (60 : ℕ) ++ List.replicate 32 26).map
                   fun h => decide (50 < h)).drop 32)],
        j := 40 } :=
  ⟨by norm_num, by decide, by decide,
    dht_decode_msb_first 26 _ (by norm_num) (by decide) (by decide)⟩

/-! ### C3 -- conversion of an accepted sample -/

/-- In this program every value or-ed into a shifted byte fits below the
shift, so the `|` of the spec's formulas and the `+` of the code agree. -/
theorem byte_lor_eq_add (a b : ℕ) (hb : b < 256) : (a <<< 8) ||| b = (a <<< 8) + b := by
  rw [shiftLeft_lor_eq_add a b 8 hb, Nat.shiftLeft_eq]
  ring

/-- Bit 7 of a byte is set exactly when `b &&& 0x80` is nonzero. -/
theorem testBit_seven_iff (b : ℕ) : b &&& 0x80 ≠ 0 ↔ b.testBit 7 = true := by
  have h : b &&& 0x80 = (b.testBit 7).toNat * 2 ^ 7 := by
    have := Nat.and_two_pow b 7
    norm_num at this ⊢
    exact this
  rw [h]
  cases hb : b.testBit 7 <;> simp

/-- C3: on a checksum-valid decode, humidity is `((b0 << 8) | b1) / 10`,
overridden to `b0` when that value exceeds 100; temperature is
`(((b2 & 0x7F) << 8) | b3) / 10`, overridden to `b2` when that value exceeds
125; and when bit 7 of `b2` is set the final temperature is negated. -/
theorem dht_conversion_formulas (b0 b1 b2 b3 : ℕ) (old : dht_reading)
    (h0 : b0 < 256) (h1 : b1 < 256) (h2 : b2 < 256) (h3 : b3 < 256) :
    (read_from_dht (encodeBytes b0 b1 b2 b3 ((b0 + b1 + b2 + b3) &&& 0xFF)) old).humidity =
      (if 100 < ((((b0 <<< 8) ||| b1 : ℕ) : ℚ) / 10) then (b0 : ℚ)
       else ((((b0 <<< 8) ||| b1 : ℕ) : ℚ) / 10)) ∧
    (read_from_dht (encodeBytes b0 b1 b2 b3 ((b0 + b1 + b2 + b3) &&& 0xFF)) old).temp_celsius =
      (if b2.testBit 7 then
        -(if 125 < ((((((b2 &&& 0x7F) <<< 8) ||| b3 : ℕ) : ℚ) / 10)) then (b2 : ℚ)
          else (((((b2 &&& 0x7F) <<< 8) ||| b3 : ℕ) : ℚ) / 10))
       else
        (if 125 < ((((((b2 &&& 0x7F) <<< 8) ||| b3 : ℕ) : ℚ) / 10)) then (b2 : ℚ)
         else (((((b2 &&& 0x7F) <<< 8) ||| b3 : ℕ) : ℚ) / 10))) := by
  have hcs : (b0 + b1 + b2 + b3) &&& 0xFF < 256 :=
    Nat.lt_succ_of_le Nat.and_le_right
  have hdec := dhtDecode_encodeBytes b0 b1 b2 b3 _ h0 h1 h2 h3 hcs
  have hv : dhtValid ⟨[b0, b1, b2, b3, (b0 + b1 + b2 + b3) &&& 0xFF], 40⟩ = true := by
    simp [dhtValid]
  have hread : read_from_dht (encodeBytes b0 b1 b2 b3 ((b0 + b1 + b2 + b3) &&& 0xFF)) old =
      dhtConvert [b0, b1, b2, b3, (b0 + b1 + b2 + b3) &&& 0xFF] := by
    simp only [read_from_dht]
    rw [hdec, hv]
    simp
  rw [hread]
  rw [byte_lor_eq_add b0 b1 h1, byte_lor_eq_add (b2 &&& 0x7F) b3 h3]
  constructor
  · simp only [dhtConvert, List.getD_eq_getElem?_getD, List.getElem?_cons_zero,
      List.getElem?_cons_succ, Option.getD_some]
    norm_num
  · simp only [dhtConvert, List.getD_eq_getElem?_getD, List.getElem?_cons_zero,
      List.getElem?_cons_succ, Option.getD_some]
    by_cases ht : b2.testBit 7 = true
    · rw [if_pos (show b2 &&& 0x80 ≠ 0 from (testBit_seven_iff b2).mpr ht), if_pos ht]
      norm_num
    · rw [if_neg (show ¬b2 &&& 0x80 ≠ 0 from fun hh => ht ((testBit_seven_iff b2).mp hh)),
        if_neg (show ¬b2.testBit 7 = true from ht)]
      norm_num

/-- Witness for C3 at the spec's scenario bytes `[0x02, 0x0A, 0x01, 0x05]`:
humidity 52.2, temperature +26.1. -/
theorem dht_conversion_formulas_witness :
    (2 : ℕ) < 256 ∧ (10 : ℕ) < 256 ∧ (1 : ℕ) < 256 ∧ (5 : ℕ) < 256 ∧
    ((read_from_dht (encodeBytes 2 10 1 5 ((2 + 10 + 1 + 5) &&& 0xFF))
        ⟨0, 0⟩).humidity =
      (if 100 < ((((2 <<< 8) ||| 10 : ℕ) : ℚ) / 10) then ((2 : ℕ) : ℚ)
       else ((((2 <<< 8) ||| 10 : ℕ) : ℚ) / 10)) ∧
     (read_from_dht (encodeBytes 2 10 1 5 ((2 + 10 + 1 + 5) &&& 0xFF))
        ⟨0, 0⟩).temp_celsius =
      (if (1 : ℕ).testBit 7 then
        -(if 125 < (((((1 &&& 0x7F) <<< 8) ||| 5 : ℕ) : ℚ) / 10) then ((1 : ℕ) : ℚ)
          else ((((1 &&& 0x7F) <<< 8) ||| 5 : ℕ) : ℚ) / 10)
       else
        (if 125 < (((((1 &&& 0x7F) <<< 8) ||| 5 : ℕ) : ℚ) / 10) then ((1 : ℕ) : ℚ)
         else ((((1 &&& 0x7F) <<< 8) ||| 5 : ℕ) : ℚ) / 10))) :=
  ⟨by norm_num, by norm_num, by norm_num, by norm_num,
    dht_conversion_formulas 2 10 1 5 ⟨0, 0⟩ (by norm_num) (by norm_num) (by norm_num)
      (by norm_num)⟩
/-! ### C4 -- debounce -/

/-- C4 counterexample: the claim says a trigger arriving at exactly
2,000,000 microseconds after the last serviced trigger's timestamp is
accepted, but `current_time <= last_press + 2000000` drops it: with
`last_press = 0` a trigger observed at `time_us_64() = 2000000` is not
serviced and the timestamp is not updated. -/
theorem debounce_boundary_counterexample :
    MainAction.serviceRead ∉ (mainIter ⟨true, 0⟩ 2000000 false).2 ∧
    (mainIter ⟨true, 0⟩ 2000000 false).1.last_press = 0 := by decide

/-- C4 (amended): of two triggers arriving less than 2,000,000 microseconds
apart only the first is serviced, and a trigger is serviced (with the
timestamp then updated) exactly when it arrives strictly more than 2,000,000
microseconds after the last serviced trigger's timestamp; at or below that
bound it is dropped and the timestamp is unchanged. -/
theorem debounce_two_seconds (st : LoopState) (now : ℕ) (irq : Bool)
    (h : st.should_read = true) :
    (MainAction.serviceRead ∈ (mainIter st now irq).2 ↔ st.last_press + 2000000 < now) ∧
    (st.last_press + 2000000 < now → (mainIter st now irq).1.last_press = now) ∧
    (now ≤ st.last_press + 2000000 →
      (mainIter st now irq).1.last_press = st.last_press ∧
      MainAction.serviceRead ∉ (mainIter st now irq).2) ∧
    (∀ t2 irq2, st.last_press + 2000000 < now → t2 < now + 2000000 →
      MainAction.serviceRead ∉
        (mainIter ⟨true, (mainIter st now irq).1.last_press⟩ t2 irq2).2) := by
  by_cases hd : now ≤ st.last_press + 2000000
  · have e : mainIter st now irq = ({ st with should_read := false },
        [MainAction.clearFlag, MainAction.readClock, MainAction.debounceDrop,
          MainAction.sleepTick]) := by
      simp [mainIter, h, hd]
    rw [e]
    refine ⟨by simp; omega, by omega, fun _ => ⟨rfl, by simp⟩, ?_⟩
    intro t2 irq2 hlt _
    omega
  · have e : mainIter st now irq =
        ((if irq then button_callback { should_read := false, last_press := now }
          else { should_read := false, last_press := now }),
         [MainAction.clearFlag, MainAction.readClock, MainAction.acceptTrigger,
          MainAction.serviceRead, MainAction.sleepTick]) := by
      simp only [mainIter, h, if_true, hd, if_neg hd]
      cases hst : st
      simp
    have elp : (mainIter st now irq).1.last_press = now := by
      rw [e]
      cases irq <;> simp [button_callback]
    refine ⟨by rw [e]; simp; omega, fun _ => elp, fun hc => absurd hc hd, ?_⟩
    intro t2 irq2 _ ht2
    rw [elp]
    have hd2 : t2 ≤ now + 2000000 := by omega
    simp [mainIter, hd2]

/-- Witness for C4 (amended): last serviced at 0, trigger observed at
2,000,001 microseconds is serviced. -/
theorem debounce_two_seconds_witness :
    (⟨true, 0⟩ : LoopState).should_read = true ∧
    (MainAction.serviceRead ∈ (mainIter ⟨true, 0⟩ 2000001 false).2 ↔ 0 + 2000000 < 2000001) :=
  ⟨rfl, (debounce_two_seconds ⟨true, 0⟩ 2000001 false rfl).1⟩

/-! ### C7 -- slot budget and poll timeout -/

/-- Only the first `85 - i` remaining hold entries can influence the slot
loop. -/
theorem dhtSlots_take (cs : List ℕ) : ∀ (i : ℕ) (st : DecodeState),
    dhtSlots i cs st = dhtSlots i (cs.take (85 - i)) st := by
  induction cs with
  | nil =>
    intro i st
    rw [List.take_nil]
  | cons c rest ih =>
    intro i st
    by_cases hi : 85 ≤ i
    · rw [show 85 - i = 0 by omega, List.take_zero]
      rw [dhtSlots_cons, if_pos (by simpa [MAX_TIMINGS] using hi)]
      rfl
    · rw [show 85 - i = (85 - (i + 1)) + 1 by omega, List.take_succ_cons]
      rw [dhtSlots_cons, dhtSlots_cons]
      by_cases habort : min c 255 = 255
      · rw [if_neg (by simpa [MAX_TIMINGS] using hi), if_pos habort,
          if_neg (by simpa [MAX_TIMINGS] using hi), if_pos habort]
      · rw [if_neg (by simpa [MAX_TIMINGS] using hi), if_neg habort,
          if_neg (by simpa [MAX_TIMINGS] using hi), if_neg habort]
        exact ih (i + 1) _

/-- C7 counterexample: the claim says the slot loop aborts early only when a
level-hold exceeds 255 polling steps, but a hold of exactly 255 steps already
aborts it: on a trace whose every hold is at most 255 (none exceeds 255), the
pass stops at the very first slot having recorded nothing, while a trace
whose first hold is only 254 steps is not aborted there and goes on to record
bits. -/
theorem slot_timeout_boundary_counterexample :
    ((255 :: List.replicate 84 26 : List ℕ).all fun c => decide (c ≤ 255)) = true ∧
    (dhtDecode (255 :: List.replicate 84 26)).j = 0 ∧
    (dhtDecode (254 :: [26, 26, 26, 26, 26])).j = 1 := by
  refine ⟨by decide, ?_, by decide⟩
  unfold dhtDecode
  rw [dhtSlots_cons, if_neg (by norm_num [MAX_TIMINGS]), if_pos (by norm_num)]
  rfl

/-- C7 (amended): the decode loop iterates at most 85 timing slots (entries
beyond the first 85 never matter), and it aborts the slot loop early exactly
when a single level-hold reaches 255 one-microsecond polling steps -- that
is, lasts 255 steps or more, the poll counter saturating at 255 -- while a
slot whose hold is 254 steps or fewer is processed and the loop moves on. -/
theorem slot_loop_bounds (cs : List ℕ) (i c : ℕ) (rest : List ℕ) (st : DecodeState) :
    dhtDecode cs = dhtDecode (cs.take 85) ∧
    (255 ≤ c → i < 85 → dhtSlots i (c :: rest) st = st) ∧
    (c < 255 → i < 85 → dhtSlots i (c :: rest) st =
      dhtSlots (i + 1) rest (stepBit i c st)) ∧
    (85 ≤ i → dhtSlots i (c :: rest) st = st) := by
  refine ⟨?_, ?_, ?_, ?_⟩
  · unfold dhtDecode
    exact dhtSlots_take cs 0 initState
  · intro hc hi
    rw [dhtSlots_cons, if_neg (by simpa [MAX_TIMINGS] using Nat.not_le.mpr hi),
      if_pos (by omega)]
  · intro hc hi
    rw [dhtSlots_cons, if_neg (by simpa [MAX_TIMINGS] using Nat.not_le.mpr hi),
      Nat.min_eq_left (by omega), if_neg (by omega)]
  · intro hi
    rw [dhtSlots_cons, if_pos (by simpa [MAX_TIMINGS] using hi)]

/-- Witness for C7 (amended) on a concrete trace: an 86-entry all-26 trace
decodes identically to its first 85 entries; a 255-hold aborts; a 26-hold
steps on. -/
theorem slot_loop_bounds_witness :
    dhtDecode (List.replicate 86 26) = dhtDecode ((List.replicate 86 26).take 85) ∧
    ((255 : ℕ) ≤ 255 ∧ (0 : ℕ) < 85 ∧ dhtSlots 0 (255 :: [26]) initState = initState) ∧
    ((26 : ℕ) < 255 ∧ dhtSlots 0 (26 :: [26]) initState =
      dhtSlots 1 [26] (stepBit 0 26 initState)) ∧
    ((85 : ℕ) ≤ 85 ∧ dhtSlots 85 (26 :: [26]) initState = initState) :=
  ⟨(slot_loop_bounds (List.replicate 86 26) 0 26 [26] initState).1,
    ⟨le_refl 255, by norm_num,
      (slot_loop_bounds (List.replicate 86 26) 0 255 [26] initState).2.1 (le_refl 255)
        (by norm_num)⟩,
    ⟨by norm_num,
      (slot_loop_bounds (List.replicate 86 26) 0 26 [26] initState).2.2.1 (by norm_num)
        (by norm_num)⟩,
    ⟨le_refl 85,
      (slot_loop_bounds (List.replicate 86 26) 85 26 [26] initState).2.2.2 (le_refl 85)⟩⟩

/-! ### C9 -- flag cleared before servicing -/

/-- C9: in every main-loop iteration that observes `should_read` set, the
very first action is clearing the flag -- before the clock is read, before
the debounce check, before any decode work -- and afterwards `should_read`
holds exactly when a button edge fired during the serviced read, so a
trigger arriving mid-service is deferred to the next iteration, not lost. -/
theorem flag_cleared_before_work (st : LoopState) (now : ℕ) (irq : Bool)
    (h : st.should_read = true) :
    (mainIter st now irq).2.head? = some MainAction.clearFlag ∧
    MainAction.clearFlag ∉ (mainIter st now irq).2.tail ∧
    (mainIter st now irq).1.should_read = (irq && decide (st.last_press + 2000000 < now)) := by
  by_cases hd : now ≤ st.last_press + 2000000
  · have e : mainIter st now irq = ({ st with should_read := false },
        [MainAction.clearFlag, MainAction.readClock, MainAction.debounceDrop,
          MainAction.sleepTick]) := by
      simp [mainIter, h, hd]
    rw [e]
    refine ⟨rfl, by simp, ?_⟩
    have : decide (st.last_press + 2000000 < now) = false := by
      simp
      omega
    rw [this]
    simp
  · have e : mainIter st now irq =
        ((if irq then button_callback { should_read := false, last_press := now }
          else { should_read := false, last_press := now }),
         [MainAction.clearFlag, MainAction.readClock, MainAction.acceptTrigger,
          MainAction.serviceRead, MainAction.sleepTick]) := by
      simp only [mainIter, h, if_true, hd, if_neg hd]
      cases hst : st
      simp
    rw [e]
    refine ⟨rfl, by simp, ?_⟩
    have : decide (st.last_press + 2000000 < now) = true := by
      simp
      omega
    rw [this]
    cases irq <;> simp [button_callback]

/-- Witness for C9: an iteration observing the flag with an edge firing
mid-service ends with the flag set again (deferred). -/
theorem flag_cleared_before_work_witness :
    (⟨true, 0⟩ : LoopState).should_read = true ∧
    (mainIter ⟨true, 0⟩ 5000000 true).2.head? = some MainAction.clearFlag ∧
    MainAction.clearFlag ∉ (mainIter ⟨true, 0⟩ 5000000 true).2.tail ∧
    (mainIter ⟨true, 0⟩ 5000000 true).1.should_read =
      (true && decide ((0 : ℕ) + 2000000 < 5000000)) :=
  ⟨rfl, (flag_cleared_before_work ⟨true, 0⟩ 5000000 true rfl).1,
    (flag_cleared_before_work ⟨true, 0⟩ 5000000 true rfl).2.1,
    (flag_cleared_before_work ⟨true, 0⟩ 5000000 true rfl).2.2⟩

/-! ### C5 -- the digit lookup table -/

/-- C5: the encoder is total on digits 0-9, copying that digit's fixed
8-entry pattern out of the 10-entry `DIGIT_MASKS` table into the display;
for a value of 10 or more the C lookup `DIGIT_MASKS[value]` reads past the
end of the table (undefined behaviour, modelled as `none`) -- there is no
InvalidDigit error path in the code. -/
theorem set_digit_table :
    DIGIT_MASKS.length = 10 ∧
    (∀ m ∈ DIGIT_MASKS, m.length = 8) ∧
    (∀ (display : List (List Bool)) (sel v : ℕ), v < 10 →
      set_digit display sel v = some (display.set sel (DIGIT_MASKS.getD v []))) ∧
    (∀ (display : List (List Bool)) (sel v : ℕ), 10 ≤ v →
      set_digit display sel v = none) := by
  refine ⟨rfl, by decide, ?_, ?_⟩
  · intro d s v hv
    interval_cases v <;> rfl
  · intro d s v hv
    unfold set_digit
    rw [List.get?_eq_getElem?, List.getElem?_eq_none
      (by have h10 : DIGIT_MASKS.length = 10 := rfl; omega)]
    rfl

/-- Witness for C5: digit 3 stores its pattern; value 10 walks off the
table. -/
theorem set_digit_table_witness :
    (3 : ℕ) < 10 ∧
    set_digit initDisplay 0 3 = some (initDisplay.set 0 (DIGIT_MASKS.getD 3 [])) ∧
    (10 : ℕ) ≤ 10 ∧
    set_digit initDisplay 0 10 = none :=
  ⟨by norm_num, set_digit_table.2.2.1 initDisplay 0 3 (by norm_num),
    le_refl 10, set_digit_table.2.2.2 initDisplay 0 10 (le_refl 10)⟩

/-! ### C8 -- rendering -/

/-- A constant `flatMap` over a range is a flattened replicate. -/
theorem range_flatMap_const {α : Type} (n : ℕ) (l : List α) :
    ((List.range n).flatMap fun _ => l) = (List.replicate n l).flatten := by
  induction n with
  | zero => rfl
  | succ m ih =>
    rw [List.range_succ, List.flatMap_append, ih, List.replicate_succ']
    simp

/-- `getD` through a mapped range. -/
theorem getD_map_range {α : Type} (f : ℕ → α) (n i : ℕ) (d : α) (h : i < n) :
    ((List.range n).map f).getD i d = f i := by
  simp [List.getD_eq_getElem?_getD, List.getElem?_map, List.getElem?_range h]

/-- C8: a render session is 1000 repetitions of the frame visiting positions
0,1,2,3 in order; each visit drives exactly the selected position's
digit-select line to the active level and the other three to the inactive
level, drives the 8 segment lines from that position's stored pattern, and
dwells 2 ms; afterwards all four digit-select lines are inactive and all 8
segment lines are zeroed. -/
theorem display_render (disp : List (List Bool)) :
    (display_all disp).1 =
      (List.replicate 1000 [display_digit disp 0, display_digit disp 1,
        display_digit disp 2, display_digit disp 3]).flatten ∧
    (∀ sel, sel < 4 → ∀ i, i < 4 →
      (display_digit disp sel).pins.digitPins.getD i true =
        (if i = sel then digitActiveLevel else !digitActiveLevel)) ∧
    (∀ sel k, sel < 4 → k < 8 →
      (display_digit disp sel).pins.segPins.getD k false = (disp.getD sel []).getD k false) ∧
    (∀ sel, (display_digit disp sel).dwell_ms = 2) ∧
    (display_all disp).2.digitPins = List.replicate 4 (!digitActiveLevel) ∧
    (display_all disp).2.segPins = List.replicate 8 false := by
  refine ⟨?_, ?_, ?_, fun _ => rfl, rfl, rfl⟩
  · unfold display_all
    rw [range_flatMap_const]
    rfl
  · intro sel hsel i hi
    show ((List.range 4).map fun x => if sel = x then false else true).getD i true = _
    rw [getD_map_range _ 4 i true hi]
    by_cases hh : i = sel
    · subst hh
      simp [digitActiveLevel]
    · rw [if_neg fun hc => hh hc.symm, if_neg hh]
      rfl
  · intro sel k hsel hk
    show ((List.range 8).map fun x => (disp.getD sel []).getD x false).getD k false = _
    rw [getD_map_range _ 8 k false hk]

/-- Witness for C8 on the blank display at position 0, digit pin 0, segment
pin 0. -/
theorem display_render_witness :
    (0 : ℕ) < 4 ∧ (0 : ℕ) < 8 ∧
    (display_all initDisplay).1 =
      (List.replicate 1000 [display_digit initDisplay 0, display_digit initDisplay 1,
        display_digit initDisplay 2, display_digit initDisplay 3]).flatten ∧
    (display_digit initDisplay 0).pins.digitPins.getD 0 true =
      (if 0 = 0 then digitActiveLevel else !digitActiveLevel) ∧
    (display_digit initDisplay 0).pins.segPins.getD 0 false =
      (initDisplay.getD 0 []).getD 0 false ∧
    (display_digit initDisplay 0).dwell_ms = 2 ∧
    (display_all initDisplay).2.digitPins = List.replicate 4 (!digitActiveLevel) ∧
    (display_all initDisplay).2.segPins = List.replicate 8 false :=
  ⟨by norm_num, by norm_num,
    (display_render initDisplay).1,
    (display_render initDisplay).2.1 0 (by norm_num) 0 (by norm_num),
    (display_render initDisplay).2.2.1 0 0 (by norm_num) (by norm_num),
    (display_render initDisplay).2.2.2.1 0,
    (display_render initDisplay).2.2.2.2.1,
    (display_render initDisplay).2.2.2.2.2⟩

/-! ### C6 -- rejected sample still redraws the display -/

/-- The C truncating cast agrees with the mathematical floor. -/
theorem cUint_eq (q : ℚ) : cUint q = ⌊q⌋.toNat := by
  unfold cUint
  rw [Rat.floor_def', ← Rat.floor_def]

/-- The digit arguments computed from a stale all-zero reading:
Fahrenheit 32, humidity 0. -/
theorem printDigitArgs_zero : printDigitArgs ⟨0, 0⟩ = [(0, 3), (1, 2), (2, 0), (3, 0)] := by
  have hF : fahrenheitOf ⟨0, 0⟩ = 32 := by norm_num [fahrenheitOf]
  unfold printDigitArgs
  rw [hF]
  rw [show (⟨0, 0⟩ : dht_reading).humidity = 0 from rfl]
  rw [show cUint 32 = 32 from by decide, show cUint 0 = 0 from by decide]

set_option maxHeartbeats 2000000 in
/-- C6: the spec's scenario-2 bytes `[0x02, 0x0A, 0x01, 0x05]` with checksum
byte `0x13` are rejected (the checksum test fails) and `read_from_dht`
leaves its result parameter untouched -- but `print_dht_reading`
unconditionally converts the stale `reading` value, overwrites all four
digit patterns and renders, so the prior display state is NOT left
unchanged by the cycle. -/
theorem checksum_reject_still_renders :
    dhtValid (dhtDecode (encodeBytes 2 10 1 5 0x13)) = false ∧
    read_from_dht (encodeBytes 2 10 1 5 0x13) ⟨0, 0⟩ = ⟨0, 0⟩ ∧
    print_dht_reading (encodeBytes 2 10 1 5 0x13) ⟨0, 0⟩ initDisplay =
      some ([DIGIT_3, DIGIT_2, DIGIT_0, DIGIT_0],
        display_all [DIGIT_3, DIGIT_2, DIGIT_0, DIGIT_0]) ∧
    ([DIGIT_3, DIGIT_2, DIGIT_0, DIGIT_0] : List (List Bool)) ≠ initDisplay := by
  have hdec6 := dhtDecode_encodeBytes 2 10 1 5 0x13 (by norm_num) (by norm_num) (by norm_num)
    (by norm_num) (by norm_num)
  have hvf : dhtValid ⟨[2, 10, 1, 5, 0x13], 40⟩ = false := by decide
  have hr : read_from_dht (encodeBytes 2 10 1 5 0x13) ⟨0, 0⟩ = ⟨0, 0⟩ := by
    simp only [read_from_dht]
    rw [hdec6, hvf]
    simp
  refine ⟨by rw [hdec6]; exact hvf, hr, ?_, by decide⟩
  simp only [print_dht_reading]
  rw [hr, printDigitArgs_zero]
  rw [show (([(0, 3), (1, 2), (2, 0), (3, 0)] : List (ℕ × ℕ)).foldlM
    (fun d (p : ℕ × ℕ) => set_digit d p.1 p.2) initDisplay) =
    some [DIGIT_3, DIGIT_2, DIGIT_0, DIGIT_0] from by decide]

/-! ### C10 -- digit values passed to set_digit -/

set_option maxHeartbeats 2000000 in
/-- C10: whenever the converted Fahrenheit value and the humidity both lie
in `[0, 100)`, `print_dht_reading` passes only values 0-9 to `set_digit`;
but for the checksum-valid reading 50.0 % / 40.0 C (Fahrenheit 104) it
passes the value 10, whose lookup runs past the end of the 10-entry digit
table. -/
theorem print_digit_values :
    (∀ r : dht_reading, 0 ≤ fahrenheitOf r → fahrenheitOf r < 100 →
      0 ≤ r.humidity → r.humidity < 100 → ∀ p ∈ printDigitArgs r, p.2 ≤ 9) ∧
    (dhtValid (dhtDecode (encodeBytes 1 244 1 144 134)) = true ∧
      read_from_dht (encodeBytes 1 244 1 144 134) ⟨0, 0⟩ = ⟨50, 40⟩ ∧
      ((0 : ℕ), (10 : ℕ)) ∈
        printDigitArgs (read_from_dht (encodeBytes 1 244 1 144 134) ⟨0, 0⟩) ∧
      DIGIT_MASKS.get? 10 = none ∧
      print_dht_reading (encodeBytes 1 244 1 144 134) ⟨0, 0⟩ initDisplay = none) := by
  constructor
  · intro r hF0 hF100 hh0 hh100 p hp
    have hbound : ∀ q : ℚ, 0 ≤ q → q < 100 → cUint q ≤ 99 := by
      intro q hq0 hq100
      unfold cUint
      have h1 : q.floor ≤ 99 := by
        by_contra hcon
        push_neg at hcon
        have h2 : ((100 : ℤ) : ℚ) ≤ q := Rat.le_floor.mp (by omega)
        push_cast at h2
        linarith
      exact Int.toNat_le.mpr (by exact_mod_cast h1)
    have hcF := hbound _ hF0 hF100
    have hch := hbound _ hh0 hh100
    simp only [printDigitArgs, List.mem_cons, List.not_mem_nil, or_false] at hp
    rcases hp with h | h | h | h <;> subst h <;> simp <;> omega
  · have hv10 : dhtValid ⟨[1, 244, 1, 144, 134], 40⟩ = true := by decide
    have hdec := dhtDecode_encodeBytes 1 244 1 144 134 (by norm_num) (by norm_num)
      (by norm_num) (by norm_num) (by norm_num)
    have hconv : dhtConvert [1, 244, 1, 144, 134] = ⟨50, 40⟩ := by
      unfold dhtConvert
      simp only [List.getD_eq_getElem?_getD, List.getElem?_cons_zero, List.getElem?_cons_succ,
        Option.getD_some]
      rw [show ((1 <<< 8) + 244 : ℕ) = 500 from rfl,
        show (((1 &&& 0x7F) <<< 8) + 144 : ℕ) = 400 from rfl,
        show (1 &&& 0x80 : ℕ) = 0 from rfl]
      norm_num
    have hread50 : read_from_dht (encodeBytes 1 244 1 144 134) ⟨0, 0⟩ = ⟨50, 40⟩ := by
      simp only [read_from_dht]
      rw [hdec, hv10]
      simp only [if_true]
      exact hconv
    have hargs : printDigitArgs ⟨50, 40⟩ = [(0, 10), (1, 4), (2, 5), (3, 0)] := by
      have hF : fahrenheitOf ⟨50, 40⟩ = 104 := by norm_num [fahrenheitOf]
      unfold printDigitArgs
      rw [hF, show (⟨50, 40⟩ : dht_reading).humidity = 50 from rfl]
      rw [show cUint 104 = 104 from by decide, show cUint 50 = 50 from by decide]
    refine ⟨by rw [hdec]; exact hv10, hread50, ?_, rfl, ?_⟩
    · rw [hread50, hargs]
      simp
    · simp only [print_dht_reading]
      rw [hread50, hargs]
      rfl

/-- Witness for C10 at the reading 52.2 % / 26.1 C (Fahrenheit 78.98): the
ones-of-Fahrenheit value is 8. -/
theorem print_digit_values_witness :
    (0 : ℚ) ≤ fahrenheitOf ⟨261 / 5, 261 / 10⟩ ∧
    fahrenheitOf ⟨261 / 5, 261 / 10⟩ < 100 ∧
    (0 : ℚ) ≤ (⟨261 / 5, 261 / 10⟩ : dht_reading).humidity ∧
    (⟨261 / 5, 261 / 10⟩ : dht_reading).humidity < 100 ∧
    ((1 : ℕ), cUint (fahrenheitOf ⟨261 / 5, 261 / 10⟩) % 10) ∈
      printDigitArgs ⟨261 / 5, 261 / 10⟩ ∧
    ((1 : ℕ), cUint (fahrenheitOf ⟨261 / 5, 261 / 10⟩) % 10).2 ≤ 9 :=
  ⟨by norm_num [fahrenheitOf], by norm_num [fahrenheitOf], by norm_num, by norm_num,
    by simp [printDigitArgs],
    print_digit_values.1 ⟨261 / 5, 261 / 10⟩ (by norm_num [fahrenheitOf])
      (by norm_num [fahrenheitOf]) (by norm_num) (by norm_num)
      _ (by simp [printDigitArgs])⟩
